import Mathlib

/-!
Shallow embedding of `src/squish/src/colourblock.rs` (BC1/BC2/BC3 colour
block codec) and proofs of its specified properties.

Modelling conventions:
* Rust machine integers are modelled as `ℕ`.  Wherever the Rust code
  performs a narrowing cast whose truncation is observable (`as u8` on a
  `u32` intermediate), the model applies `% 256` explicitly; casts that
  are provably lossless in context are noted in comments.
* Byte buffers (`&[u8]`, `&mut [u8]`) are modelled as `List ℕ`; the
  16-entry index array `&[u8; 16]` as a function `ℕ → ℕ` (only arguments
  `0..15` are ever used, matching the fixed array size).
* The pixel sink trait `RawColor4x4Block` is modelled by its observable
  behaviour: `decompress` returns the trace of `set_value` calls as a
  list of `(x, y, channel, value)` tuples, or `none` when one of the
  `assert!` preconditions fails (a Rust panic).
-/

namespace Squish

/-- An RGBA quad of 8-bit channel values (each `ℕ`, intended `< 256`). -/
structure Rgba where
  r : ℕ
  g : ℕ
  b : ℕ
  a : ℕ
  deriving DecidableEq, Repr

/-- Modelled from the spec: the colour type `Vec3` lives in
`src/squish/src/math.rs`, which is not provided.  Per the spec it is a
"3-component float color accessor (range conventionally 0-1)"; floats
are modelled as rationals. -/
structure Vec3 where
  x : ℚ
  y : ℚ
  z : ℚ

/-- Modelled from the spec: `f32_to_i32_clamped` lives in
`src/squish/src/math.rs`, which is not provided.  Per the spec it is "a
round-and-saturate function mapping a float and an integer maximum to a
clamped integer", i.e. rounding to nearest with saturation to `[0, max]`.
The exact tie-breaking rule is an open question in the spec (§9); we use
round-half-up, and no claim below depends on the tie rule. -/
def f32_to_i32_clamped (value : ℚ) (m : ℤ) : ℤ :=
  max 0 (min m ⌊value + 1 / 2⌋)

/-- `pack_565`: convert a colour value to a (little endian) u16.
The `as u16` casts are lossless since each channel is clamped to
`[0, 31]` or `[0, 63]`, and the shifted fields are disjoint, so the u16
arithmetic cannot wrap (see `pack_565_lt`). -/
def pack_565 (colour : Vec3) : ℕ :=
  let r := (f32_to_i32_clamped (31 * colour.x) 31).toNat
  let g := (f32_to_i32_clamped (63 * colour.y) 63).toNat
  let b := (f32_to_i32_clamped (31 * colour.z) 31).toNat
  (r <<< 11) ||| (g <<< 5) ||| b

/-- `write_block`: bytes 0-1 hold `a` little-endian, bytes 2-3 hold `b`
little-endian, bytes 4-7 pack four 2-bit indices each (index `4*i+k` in
bits `2*k..2*k+1` of byte `4+i`). -/
def write_block (a b : ℕ) (indices : ℕ → ℕ) : List ℕ :=
  let packedByte (i : ℕ) : ℕ :=
    ((indices (4 * i + 3) &&& 0x03) <<< 6) |||
    ((indices (4 * i + 2) &&& 0x03) <<< 4) |||
    ((indices (4 * i + 1) &&& 0x03) <<< 2) |||
    (indices (4 * i) &&& 0x03)
  [a % 256, a / 256 % 256, b % 256, b / 256 % 256,
   packedByte 0, packedByte 1, packedByte 2, packedByte 3]

/-- The index remapping applied by `write3` when it swaps endpoints:
labels 0 and 1 are exchanged, everything else kept. -/
def remap01 (index : ℕ) : ℕ :=
  match index with
  | 0 => 1
  | 1 => 0
  | x => x

/-- `write3`: 3-colour (alpha-capable) encoder.  If `pack_565 start >
pack_565 end` the packed endpoints are swapped (`mem::swap`) and index
labels 0/1 are exchanged; then the block is serialized. -/
def write3 (start end_ : Vec3) (indices : ℕ → ℕ) : List ℕ :=
  let a := pack_565 start
  let b := pack_565 end_
  if a > b then
    write_block b a (fun i => remap01 (indices i))
  else
    write_block a b indices

/-- `write4`: 4-colour (opaque) encoder.  `remapped` starts as all
zeros; if `a < b` swap the endpoints and remap every index by
`(index ^ 0x01) & 0x03`; if `a > b` use the indices as-is; if `a = b`
keep the all-zero indices. -/
def write4 (start end_ : Vec3) (indices : ℕ → ℕ) : List ℕ :=
  let a := pack_565 start
  let b := pack_565 end_
  if a < b then
    write_block b a (fun i => (indices i ^^^ 0x01) &&& 0x03)
  else if a > b then
    write_block a b indices
  else
    write_block a b (fun _ => 0)

/-- `unpack_565` on the already-parsed little-endian u16 `value`
(the Rust function takes the two raw bytes and first reassembles this
word; its `assert!(packed.len() == 2)` holds at both call sites inside
`decompress`, which pass 2-byte slices).  The `as u8` casts of the
masked fields and the u8 shifts are lossless: the fields are at most
31/63/31, so `r <<< 3 ≤ 248`, `g <<< 2 ≤ 252`, `b <<< 3 ≤ 248`. -/
def unpack_565 (value : ℕ) : Rgba :=
  let r := (value >>> 11) &&& 0x1F
  let g := (value >>> 5) &&& 0x3F
  let b := value &&& 0x1F
  { r := (r <<< 3) ||| (r >>> 2)
    g := (g <<< 2) ||| (g >>> 4)
    b := (b <<< 3) ||| (b >>> 2)
    a := 255 }

/-- Read a little-endian u16 at byte offset `o` (`u16::from_le_bytes`). -/
def readU16LE (bytes : List ℕ) (o : ℕ) : ℕ :=
  bytes.getD o 0 + 256 * bytes.getD (o + 1) 0

/-- The endpoint word `a` that `decompress` reads from bytes 0-1. -/
def blockA (bytes : List ℕ) : ℕ := readU16LE bytes 0

/-- The endpoint word `b` that `decompress` reads from bytes 2-3. -/
def blockB (bytes : List ℕ) : ℕ := readU16LE bytes 2

/-- The palette (`codes` array, viewed as four RGBA quads) that
`decompress` derives from an 8-byte block.  Entries 0/1 are the unpacked
endpoints.  Entries 2/3 come from the u32 interpolation loop, whose
result is cast `as u8` (modelled by `% 256`); the loop also computes the
alpha channels (both 255 in entries 0/1, so every interpolation yields
255), which lines 151-152 of the source then overwrite with 255 and
with 0-or-255 respectively — the final alpha values recorded here. -/
def decompPalette (bytes : List ℕ) (is_bc1 : Bool) : Fin 4 → Rgba :=
  let a := blockA bytes
  let b := blockB bytes
  let code0 := unpack_565 a
  let code1 := unpack_565 b
  let code2 : Rgba :=
    if is_bc1 = true ∧ a ≤ b then
      { r := ((code0.r + code1.r) / 2) % 256
        g := ((code0.g + code1.g) / 2) % 256
        b := ((code0.b + code1.b) / 2) % 256
        a := 255 }
    else
      { r := ((2 * code0.r + code1.r) / 3) % 256
        g := ((2 * code0.g + code1.g) / 3) % 256
        b := ((2 * code0.b + code1.b) / 3) % 256
        a := 255 }
  let code3 : Rgba :=
    if is_bc1 = true ∧ a ≤ b then
      { r := 0, g := 0, b := 0, a := 0 }
    else
      { r := ((code0.r + 2 * code1.r) / 3) % 256
        g := ((code0.g + 2 * code1.g) / 3) % 256
        b := ((code0.b + 2 * code1.b) / 3) % 256
        a := 255 }
  fun i =>
    match i with
    | 0 => code0
    | 1 => code1
    | 2 => code2
    | 3 => code3

/-- The 2-bit LUT index `decompress` unpacks for pixel `p`:
bits `2*(p%4)..2*(p%4)+1` of byte `4 + p/4`. -/
def blockIndices (bytes : List ℕ) (p : ℕ) : ℕ :=
  (bytes.getD (4 + p / 4) 0 >>> (2 * (p % 4))) &&& 0x03

/-- The RGBA quad `decompress` resolves for pixel `p` (the `rgba[i]`
array): the palette entry selected by that pixel's 2-bit index.  The
`&&& 0x03` mask bounds the index below 4, so the source's slice
`codes[4*index..4*index+4]` is always in range. -/
def decompPixel (bytes : List ℕ) (is_bc1 : Bool) (p : ℕ) : Rgba :=
  decompPalette bytes is_bc1
    ⟨blockIndices bytes p, by
      simp only [blockIndices]
      exact Nat.lt_succ_of_le Nat.and_le_right⟩

/-- Channel accessor for the final per-pixel write loop
(`color.iter().enumerate()` over the 4-entry `[r, g, b, a]` array). -/
def rgbaChannel (c : Rgba) (channel : ℕ) : ℕ :=
  match channel with
  | 0 => c.r
  | 1 => c.g
  | 2 => c.b
  | _ => c.a

/-- `decompress`: returns `none` when one of the two `assert!`
preconditions fails (the Rust panic), otherwise the trace of
`output.set_value(x, y, channel, value)` calls in program order:
`y` outer, then `x`, then the pixel's four colour channels. -/
def decompress (bytes : List ℕ) (is_bc1 : Bool) (numChannels : ℕ) :
    Option (List (ℕ × ℕ × ℕ × ℕ)) :=
  if bytes.length = 8 ∧ 4 ≤ numChannels then
    some ((List.range 4).flatMap fun y =>
      (List.range 4).flatMap fun x =>
        (List.range 4).map fun channel =>
          (x, y, channel,
            rgbaChannel (decompPixel bytes is_bc1 (y * 4 + x)) channel))
  else
    none

/-! ## Helper lemmas -/

lemma f32_to_i32_clamped_toNat_le (x : ℚ) (m : ℤ) (hm : 0 ≤ m) :
    (f32_to_i32_clamped x m).toNat ≤ m.toNat := by
  have h : f32_to_i32_clamped x m ≤ m := by
    unfold f32_to_i32_clamped
    exact max_le hm (min_le_left _ _)
  exact Int.toNat_le_toNat h

lemma pack_565_lt (colour : Vec3) : pack_565 colour < 65536 := by
  have hr : (f32_to_i32_clamped (31 * colour.x) 31).toNat ≤ 31 :=
    f32_to_i32_clamped_toNat_le _ _ (by norm_num)
  have hg : (f32_to_i32_clamped (63 * colour.y) 63).toNat ≤ 63 :=
    f32_to_i32_clamped_toNat_le _ _ (by norm_num)
  have hb : (f32_to_i32_clamped (31 * colour.z) 31).toNat ≤ 31 :=
    f32_to_i32_clamped_toNat_le _ _ (by norm_num)
  show (_ <<< 11) ||| (_ <<< 5) ||| _ < 65536
  have h65536 : (65536 : ℕ) = 2 ^ 16 := by norm_num
  rw [h65536]
  refine Nat.or_lt_two_pow (Nat.or_lt_two_pow ?_ ?_) ?_
  · rw [Nat.shiftLeft_eq]; omega
  · rw [Nat.shiftLeft_eq]; omega
  · omega

lemma blockA_write_block (a b : ℕ) (indices : ℕ → ℕ) (ha : a < 65536) :
    blockA (write_block a b indices) = a := by
  have h : blockA (write_block a b indices) = a % 256 + 256 * (a / 256 % 256) := rfl
  omega

lemma blockB_write_block (a b : ℕ) (indices : ℕ → ℕ) (hb : b < 65536) :
    blockB (write_block a b indices) = b := by
  have h : blockB (write_block a b indices) = b % 256 + 256 * (b / 256 % 256) := rfl
  omega

lemma unpack_565_r (value : ℕ) : (unpack_565 value).r =
    ((((value >>> 11) &&& 0x1F) <<< 3) ||| (((value >>> 11) &&& 0x1F) >>> 2)) := rfl

lemma unpack_565_g (value : ℕ) : (unpack_565 value).g =
    ((((value >>> 5) &&& 0x3F) <<< 2) ||| (((value >>> 5) &&& 0x3F) >>> 4)) := rfl

lemma unpack_565_b (value : ℕ) : (unpack_565 value).b =
    (((value &&& 0x1F) <<< 3) ||| ((value &&& 0x1F) >>> 2)) := rfl

lemma unpack_565_a (value : ℕ) : (unpack_565 value).a = 255 := rfl

lemma lor_le_255 {x y : ℕ} (hx : x ≤ 255) (hy : y ≤ 255) : x ||| y ≤ 255 := by
  have h := Nat.or_lt_two_pow (n := 8) (x := x) (y := y) (by omega) (by omega)
  omega

lemma unpack_565_r_le (value : ℕ) : (unpack_565 value).r ≤ 255 := by
  have h : (value >>> 11) &&& 0x1F ≤ 31 := Nat.and_le_right
  rw [unpack_565_r]
  refine lor_le_255 ?_ ?_
  · rw [Nat.shiftLeft_eq]; omega
  · rw [Nat.shiftRight_eq_div_pow]; omega

lemma unpack_565_g_le (value : ℕ) : (unpack_565 value).g ≤ 255 := by
  have h : (value >>> 5) &&& 0x3F ≤ 63 := Nat.and_le_right
  rw [unpack_565_g]
  refine lor_le_255 ?_ ?_
  · rw [Nat.shiftLeft_eq]; omega
  · rw [Nat.shiftRight_eq_div_pow]; omega

lemma unpack_565_b_le (value : ℕ) : (unpack_565 value).b ≤ 255 := by
  have h : value &&& 0x1F ≤ 31 := Nat.and_le_right
  rw [unpack_565_b]
  refine lor_le_255 ?_ ?_
  · rw [Nat.shiftLeft_eq]; omega
  · rw [Nat.shiftRight_eq_div_pow]; omega

lemma decompPalette_zero (bytes : List ℕ) (is_bc1 : Bool) :
    decompPalette bytes is_bc1 0 = unpack_565 (blockA bytes) := rfl

lemma decompPalette_one (bytes : List ℕ) (is_bc1 : Bool) :
    decompPalette bytes is_bc1 1 = unpack_565 (blockB bytes) := rfl

lemma decompPalette_two (bytes : List ℕ) (is_bc1 : Bool) :
    decompPalette bytes is_bc1 2 =
      (if is_bc1 = true ∧ blockA bytes ≤ blockB bytes then
        { r := (((unpack_565 (blockA bytes)).r + (unpack_565 (blockB bytes)).r) / 2) % 256
          g := (((unpack_565 (blockA bytes)).g + (unpack_565 (blockB bytes)).g) / 2) % 256
          b := (((unpack_565 (blockA bytes)).b + (unpack_565 (blockB bytes)).b) / 2) % 256
          a := 255 }
      else
        { r := ((2 * (unpack_565 (blockA bytes)).r + (unpack_565 (blockB bytes)).r) / 3) % 256
          g := ((2 * (unpack_565 (blockA bytes)).g + (unpack_565 (blockB bytes)).g) / 3) % 256
          b := ((2 * (unpack_565 (blockA bytes)).b + (unpack_565 (blockB bytes)).b) / 3) % 256
          a := 255 }) := rfl

lemma decompPalette_three (bytes : List ℕ) (is_bc1 : Bool) :
    decompPalette bytes is_bc1 3 =
      (if is_bc1 = true ∧ blockA bytes ≤ blockB bytes then
        { r := 0, g := 0, b := 0, a := 0 }
      else
        { r := (((unpack_565 (blockA bytes)).r + 2 * (unpack_565 (blockB bytes)).r) / 3) % 256
          g := (((unpack_565 (blockA bytes)).g + 2 * (unpack_565 (blockB bytes)).g) / 3) % 256
          b := (((unpack_565 (blockA bytes)).b + 2 * (unpack_565 (blockB bytes)).b) / 3) % 256
          a := 255 }) := rfl

/-! ## Claim theorems -/

/-- C1: for every pair of float endpoints and every index array, the
block written by `write4` stores endpoint words with `A ≥ B`, and
`A = B` exactly when `pack_565 start = pack_565 end`; hence a `write4`
block never satisfies `A < B`. -/
theorem write4_ordering_invariant (start end_ : Vec3) (indices : ℕ → ℕ) :
    blockB (write4 start end_ indices) ≤ blockA (write4 start end_ indices) ∧
    (blockA (write4 start end_ indices) = blockB (write4 start end_ indices) ↔
      pack_565 start = pack_565 end_) := by
  have hs := pack_565_lt start
  have he := pack_565_lt end_
  simp only [write4]
  split_ifs with h1 h2
  · rw [blockA_write_block _ _ _ he, blockB_write_block _ _ _ hs]
    omega
  · rw [blockA_write_block _ _ _ hs, blockB_write_block _ _ _ he]
    omega
  · rw [blockA_write_block _ _ _ hs, blockB_write_block _ _ _ he]
    omega

/-- C2: the block written by `write3` always stores endpoint words with
`A ≤ B`; when `pack_565 start > pack_565 end` the packed values are
swapped and index labels 0 and 1 are exchanged (label 2 unchanged),
otherwise the inputs are serialized as-is. -/
theorem write3_ordering_invariant (start end_ : Vec3) (indices : ℕ → ℕ) :
    blockA (write3 start end_ indices) ≤ blockB (write3 start end_ indices) ∧
    write3 start end_ indices =
      (if pack_565 start > pack_565 end_ then
        write_block (pack_565 end_) (pack_565 start) (fun i => remap01 (indices i))
      else
        write_block (pack_565 start) (pack_565 end_) indices) := by
  have hs := pack_565_lt start
  have he := pack_565_lt end_
  simp only [write3]
  split_ifs with h
  · rw [blockA_write_block _ _ _ he, blockB_write_block _ _ _ hs]
    exact ⟨by omega, trivial⟩
  · rw [blockA_write_block _ _ _ hs, blockB_write_block _ _ _ he]
    exact ⟨by omega, trivial⟩

/-- C3: `decompress` selects the palette mode by comparing the raw
packed little-endian endpoint words `A` and `B`: when `is_bc1` and
`A ≤ B`, slot 2 is the per-channel truncating average `(c + d) / 2` of
the 8-bit unpacked endpoints and slot 3 is all channels 0 (alpha 0
included); otherwise slot 2 is `(2c + d) / 3` and slot 3 is
`(c + 2d) / 3` per channel, both with alpha 255.  (The equations hold
without any `% 256` cast: the quotients never exceed 255.) -/
theorem decompress_palette_mode_selection (bytes : List ℕ) (is_bc1 : Bool) :
    decompPalette bytes is_bc1 2 =
      (if is_bc1 = true ∧ blockA bytes ≤ blockB bytes then
        { r := ((unpack_565 (blockA bytes)).r + (unpack_565 (blockB bytes)).r) / 2
          g := ((unpack_565 (blockA bytes)).g + (unpack_565 (blockB bytes)).g) / 2
          b := ((unpack_565 (blockA bytes)).b + (unpack_565 (blockB bytes)).b) / 2
          a := 255 }
      else
        { r := (2 * (unpack_565 (blockA bytes)).r + (unpack_565 (blockB bytes)).r) / 3
          g := (2 * (unpack_565 (blockA bytes)).g + (unpack_565 (blockB bytes)).g) / 3
          b := (2 * (unpack_565 (blockA bytes)).b + (unpack_565 (blockB bytes)).b) / 3
          a := 255 }) ∧
    decompPalette bytes is_bc1 3 =
      (if is_bc1 = true ∧ blockA bytes ≤ blockB bytes then
        { r := 0, g := 0, b := 0, a := 0 }
      else
        { r := ((unpack_565 (blockA bytes)).r + 2 * (unpack_565 (blockB bytes)).r) / 3
          g := ((unpack_565 (blockA bytes)).g + 2 * (unpack_565 (blockB bytes)).g) / 3
          b := ((unpack_565 (blockA bytes)).b + 2 * (unpack_565 (blockB bytes)).b) / 3
          a := 255 }) := by
  have har := unpack_565_r_le (blockA bytes)
  have hag := unpack_565_g_le (blockA bytes)
  have hab := unpack_565_b_le (blockA bytes)
  have hbr := unpack_565_r_le (blockB bytes)
  have hbg := unpack_565_g_le (blockB bytes)
  have hbb := unpack_565_b_le (blockB bytes)
  rw [decompPalette_two, decompPalette_three]
  constructor
  · split_ifs with h
    · simp only [Rgba.mk.injEq]
      refine ⟨by omega, by omega, by omega, trivial⟩
    · simp only [Rgba.mk.injEq]
      refine ⟨by omega, by omega, by omega, trivial⟩
  · split_ifs with h
    · rfl
    · simp only [Rgba.mk.injEq]
      refine ⟨by omega, by omega, by omega, trivial⟩

/-- C7: `decompress` fails fatally (modelled as `none`) if and only if
the input is not exactly 8 bytes or the sink reports fewer than 4
channels; for every 8-byte input and any sink with at least 4 channels
it succeeds — there is no other error path. -/
theorem decompress_error_contract (bytes : List ℕ) (is_bc1 : Bool)
    (numChannels : ℕ) :
    (decompress bytes is_bc1 numChannels = none ↔
      (bytes.length ≠ 8 ∨ numChannels < 4)) ∧
    ((decompress bytes is_bc1 numChannels).isSome = true ↔
      (bytes.length = 8 ∧ 4 ≤ numChannels)) := by
  unfold decompress
  split_ifs with h
  · simp only [Option.isSome_some, reduceCtorEq, false_iff, true_iff]
    omega
  · simp only [Option.isSome_none, true_iff, Bool.false_eq_true, false_iff]
    omega

/-- C10: the intermediate palette arithmetic of `decompress` operates
on unpacked channel values that are each at most 255, hence all three
interpolation quotients are at most 255, the narrowing casts to u8
(`% 256`) never truncate, and every derived palette channel is at most
255. -/
theorem decompress_arithmetic_no_truncation (bytes : List ℕ)
    (is_bc1 : Bool) :
    ((unpack_565 (blockA bytes)).r ≤ 255 ∧
     (unpack_565 (blockA bytes)).g ≤ 255 ∧
     (unpack_565 (blockA bytes)).b ≤ 255 ∧
     (unpack_565 (blockB bytes)).r ≤ 255 ∧
     (unpack_565 (blockB bytes)).g ≤ 255 ∧
     (unpack_565 (blockB bytes)).b ≤ 255) ∧
    (((unpack_565 (blockA bytes)).r + (unpack_565 (blockB bytes)).r) / 2 ≤ 255 ∧
     (2 * (unpack_565 (blockA bytes)).r + (unpack_565 (blockB bytes)).r) / 3 ≤ 255 ∧
     ((unpack_565 (blockA bytes)).r + 2 * (unpack_565 (blockB bytes)).r) / 3 ≤ 255 ∧
     ((unpack_565 (blockA bytes)).g + (unpack_565 (blockB bytes)).g) / 2 ≤ 255 ∧
     (2 * (unpack_565 (blockA bytes)).g + (unpack_565 (blockB bytes)).g) / 3 ≤ 255 ∧
     ((unpack_565 (blockA bytes)).g + 2 * (unpack_565 (blockB bytes)).g) / 3 ≤ 255 ∧
     ((unpack_565 (blockA bytes)).b + (unpack_565 (blockB bytes)).b) / 2 ≤ 255 ∧
     (2 * (unpack_565 (blockA bytes)).b + (unpack_565 (blockB bytes)).b) / 3 ≤ 255 ∧
     ((unpack_565 (blockA bytes)).b + 2 * (unpack_565 (blockB bytes)).b) / 3 ≤ 255) ∧
    (∀ i : Fin 4,
      (decompPalette bytes is_bc1 i).r ≤ 255 ∧
      (decompPalette bytes is_bc1 i).g ≤ 255 ∧
      (decompPalette bytes is_bc1 i).b ≤ 255 ∧
      (decompPalette bytes is_bc1 i).a ≤ 255) := by
  have har := unpack_565_r_le (blockA bytes)
  have hag := unpack_565_g_le (blockA bytes)
  have hab := unpack_565_b_le (blockA bytes)
  have hbr := unpack_565_r_le (blockB bytes)
  have hbg := unpack_565_g_le (blockB bytes)
  have hbb := unpack_565_b_le (blockB bytes)
  refine ⟨⟨har, hag, hab, hbr, hbg, hbb⟩, ?_, ?_⟩
  · refine ⟨?_, ?_, ?_, ?_, ?_, ?_, ?_, ?_, ?_⟩ <;> omega
  · intro i
    match i with
    | 0 =>
      rw [decompPalette_zero, unpack_565_a]
      exact ⟨har, hag, hab, le_refl 255⟩
    | 1 =>
      rw [decompPalette_one, unpack_565_a]
      exact ⟨hbr, hbg, hbb, le_refl 255⟩
    | 2 =>
      rw [decompPalette_two]
      split_ifs with h <;> dsimp only <;>
        exact ⟨by omega, by omega, by omega, by omega⟩
    | 3 =>
      rw [decompPalette_three]
      split_ifs with h <;> dsimp only <;>
        exact ⟨by omega, by omega, by omega, by omega⟩

lemma and3_and3 (x : ℕ) : x &&& 3 &&& 3 = x &&& 3 := by
  rw [Nat.and_assoc]
  exact congrArg (fun y => x &&& y) (by decide)

lemma xor1_mask (x : ℕ) : (((x ^^^ 1) &&& 3) ^^^ 1) &&& 3 = x &&& 3 := by
  have h1 : (x ^^^ 1) &&& 3 = (x &&& 3) ^^^ 1 := by
    rw [Nat.and_xor_distrib_right]
    exact congrArg (fun y => (x &&& 3) ^^^ y) (by decide)
  rw [h1, Nat.xor_assoc]
  have h2 : (1 : ℕ) ^^^ 1 = 0 := rfl
  rw [h2, Nat.xor_zero, and3_and3]

lemma write_block_congr (a b : ℕ) (f g : ℕ → ℕ)
    (h : ∀ i, f i &&& 3 = g i &&& 3) :
    write_block a b f = write_block a b g := by
  simp only [write_block, h]

/-- Swapping the endpoint arguments of `write4` while XOR-remapping the
indices produces the identical 8-byte block. -/
lemma write4_swap_block (start end_ : Vec3) (indices : ℕ → ℕ) :
    write4 end_ start (fun i => (indices i ^^^ 0x01) &&& 0x03) =
      write4 start end_ indices := by
  simp only [write4]
  rcases lt_trichotomy (pack_565 start) (pack_565 end_) with h | h | h
  · rw [if_neg (by omega), if_pos (by omega), if_pos h]
  · rw [if_neg (by omega), if_neg (by omega), if_neg (by omega),
      if_neg (by omega), h]
  · rw [if_pos h, if_neg (by omega), if_pos (by omega)]
    refine write_block_congr _ _ _ _ (fun i => ?_)
    rw [and3_and3]
    exact xor1_mask (indices i)

/-- C4: encoding with `write3` or `write4` and then decoding recovers
palette slots 0 and 1 as `unpack_565 (pack_565 start)` and
`unpack_565 (pack_565 end)`, in their original roles or exchanged
exactly according to the encoder's endpoint-ordering swap. -/
theorem roundtrip_endpoints (start end_ : Vec3) (indices : ℕ → ℕ)
    (is_bc1 : Bool) :
    (decompPalette (write3 start end_ indices) is_bc1 0 =
      unpack_565 (if pack_565 start > pack_565 end_ then pack_565 end_
        else pack_565 start) ∧
     decompPalette (write3 start end_ indices) is_bc1 1 =
      unpack_565 (if pack_565 start > pack_565 end_ then pack_565 start
        else pack_565 end_)) ∧
    (decompPalette (write4 start end_ indices) is_bc1 0 =
      unpack_565 (if pack_565 start < pack_565 end_ then pack_565 end_
        else pack_565 start) ∧
     decompPalette (write4 start end_ indices) is_bc1 1 =
      unpack_565 (if pack_565 start < pack_565 end_ then pack_565 start
        else pack_565 end_)) := by
  have hs := pack_565_lt start
  have he := pack_565_lt end_
  simp only [decompPalette_zero, decompPalette_one, write3, write4]
  refine ⟨⟨?_, ?_⟩, ?_, ?_⟩ <;> split_ifs <;>
    first
    | rw [blockA_write_block _ _ _ hs]
    | rw [blockA_write_block _ _ _ he]
    | rw [blockB_write_block _ _ _ hs]
    | rw [blockB_write_block _ _ _ he]

/-- C5: the block `write4 start end idx` and the block
`write4 end start idx'` with `idx' i = (idx i XOR 1) AND 0x3` decompress
to pixel-for-pixel identical RGBA output, for every `is_bc1` and every
sink. -/
theorem write4_swap_self_consistency (start end_ : Vec3)
    (indices : ℕ → ℕ) (is_bc1 : Bool) (numChannels : ℕ) :
    decompress (write4 start end_ indices) is_bc1 numChannels =
      decompress (write4 end_ start (fun i => (indices i ^^^ 0x01) &&& 0x03))
        is_bc1 numChannels ∧
    ∀ p : ℕ,
      decompPixel (write4 start end_ indices) is_bc1 p =
        decompPixel (write4 end_ start (fun i => (indices i ^^^ 0x01) &&& 0x03))
          is_bc1 p := by
  rw [write4_swap_block]
  exact ⟨rfl, fun p => rfl⟩

lemma blockIndices_lt (bytes : List ℕ) (p : ℕ) : blockIndices bytes p < 4 :=
  Nat.lt_succ_of_le Nat.and_le_right

lemma extract_bits0 : ∀ d < 4, ∀ c < 4, ∀ b < 4, ∀ a < 4,
    ((d <<< 6) ||| (c <<< 4) ||| (b <<< 2) ||| a) &&& 3 = a := by decide

lemma extract_bits1 : ∀ d < 4, ∀ c < 4, ∀ b < 4, ∀ a < 4,
    (((d <<< 6) ||| (c <<< 4) ||| (b <<< 2) ||| a) >>> 2) &&& 3 = b := by
  decide

lemma extract_bits2 : ∀ d < 4, ∀ c < 4, ∀ b < 4, ∀ a < 4,
    (((d <<< 6) ||| (c <<< 4) ||| (b <<< 2) ||| a) >>> 4) &&& 3 = c := by
  decide

lemma extract_bits3 : ∀ d < 4, ∀ c < 4, ∀ b < 4, ∀ a < 4,
    (((d <<< 6) ||| (c <<< 4) ||| (b <<< 2) ||| a) >>> 6) &&& 3 = d := by
  decide

/-- The index `decompress` unpacks for pixel `p` from a block produced
by `write_block` is the encoder's index for that pixel, masked to 2
bits. -/
lemma blockIndices_write_block (a b : ℕ) (indices : ℕ → ℕ) (p : ℕ)
    (hp : p < 16) :
    blockIndices (write_block a b indices) p = indices p &&& 3 := by
  have mask : ∀ j : ℕ, indices j &&& 3 < 4 :=
    fun j => Nat.lt_succ_of_le Nat.and_le_right
  interval_cases p <;>
    first
    | exact extract_bits0 _ (mask _) _ (mask _) _ (mask _) _ (mask _)
    | exact extract_bits1 _ (mask _) _ (mask _) _ (mask _) _ (mask _)
    | exact extract_bits2 _ (mask _) _ (mask _) _ (mask _) _ (mask _)
    | exact extract_bits3 _ (mask _) _ (mask _) _ (mask _) _ (mask _)

/-- C6: the serialized block layout.  Endpoints `a` and `b` are stored
little-endian in bytes 0-1 and 2-3; the 16 two-bit indices are packed
four per byte into bytes 4-7 with index `4*i+k` in bits `2*k..2*k+1` of
byte `4+i`; `decompress` unpacks indices from the same positions, and
pixel `4*i+k` (row-major `y*4+x` with `y = i`, `x = k`) receives the
palette entry selected by the index stored for that pixel. -/
theorem block_layout (a b : ℕ) (ha : a < 65536) (hb : b < 65536)
    (indices : ℕ → ℕ) (i k : ℕ) (hi : i < 4) (hk : k < 4)
    (bytes : List ℕ) (is_bc1 : Bool) :
    (write_block a b indices).length = 8 ∧
    readU16LE (write_block a b indices) 0 = a ∧
    readU16LE (write_block a b indices) 2 = b ∧
    ((write_block a b indices).getD (4 + i) 0 >>> (2 * k)) &&& 3 =
      indices (4 * i + k) &&& 3 ∧
    blockIndices (write_block a b indices) (4 * i + k) =
      indices (4 * i + k) &&& 3 ∧
    decompPixel bytes is_bc1 (4 * i + k) =
      decompPalette bytes is_bc1
        ⟨blockIndices bytes (4 * i + k),
         blockIndices_lt bytes (4 * i + k)⟩ ∧
    decompPixel (write_block a b indices) is_bc1 (4 * i + k) =
      decompPalette (write_block a b indices) is_bc1
        ⟨indices (4 * i + k) &&& 3,
         Nat.lt_succ_of_le Nat.and_le_right⟩ := by
  have hidx := blockIndices_write_block a b indices (4 * i + k) (by omega)
  refine ⟨rfl, blockA_write_block a b indices ha,
    blockB_write_block a b indices hb, ?_, hidx, rfl, ?_⟩
  · have e1 : (4 * i + k) / 4 = i := by omega
    have e2 : (4 * i + k) % 4 = k := by omega
    simp only [blockIndices, e1, e2] at hidx
    exact hidx
  · exact congrArg (decompPalette (write_block a b indices) is_bc1)
      (Fin.ext hidx)

/-- Witness for `block_layout` at concrete inputs. -/
theorem block_layout_witness :
    (1000 : ℕ) < 65536 ∧ (2000 : ℕ) < 65536 ∧ (1 : ℕ) < 4 ∧ (2 : ℕ) < 4 ∧
    ((write_block 1000 2000 (fun j => j)).length = 8 ∧
     readU16LE (write_block 1000 2000 (fun j => j)) 0 = 1000 ∧
     readU16LE (write_block 1000 2000 (fun j => j)) 2 = 2000 ∧
     ((write_block 1000 2000 (fun j => j)).getD (4 + 1) 0 >>> (2 * 2)) &&& 3 =
       (fun j : ℕ => j) (4 * 1 + 2) &&& 3 ∧
     blockIndices (write_block 1000 2000 (fun j => j)) (4 * 1 + 2) =
       (fun j : ℕ => j) (4 * 1 + 2) &&& 3 ∧
     decompPixel [0, 0, 0, 0, 0, 0, 0, 0] true (4 * 1 + 2) =
       decompPalette [0, 0, 0, 0, 0, 0, 0, 0] true
         ⟨blockIndices [0, 0, 0, 0, 0, 0, 0, 0] (4 * 1 + 2),
          blockIndices_lt [0, 0, 0, 0, 0, 0, 0, 0] (4 * 1 + 2)⟩ ∧
     decompPixel (write_block 1000 2000 (fun j => j)) true (4 * 1 + 2) =
       decompPalette (write_block 1000 2000 (fun j => j)) true
         ⟨(fun j : ℕ => j) (4 * 1 + 2) &&& 3,
          Nat.lt_succ_of_le Nat.and_le_right⟩) :=
  ⟨by decide, by decide, by decide, by decide,
   block_layout 1000 2000 (by decide) (by decide) (fun j => j) 1 2
     (by decide) (by decide) [0, 0, 0, 0, 0, 0, 0, 0] true⟩

lemma unpack_565_mono_rb : ∀ v < 32, ∀ w < 32, v ≤ w →
    (unpack_565 (v <<< 11)).r ≤ (unpack_565 (w <<< 11)).r ∧
    (unpack_565 v).b ≤ (unpack_565 w).b := by decide

lemma unpack_565_mono_g : ∀ v < 64, ∀ w < 64, v ≤ w →
    (unpack_565 (v <<< 5)).g ≤ (unpack_565 (w <<< 5)).g := by decide

/-- C8: for each channel of `unpack_565`, the bit-replication expansion
from the packed field value (`0..31` for red/blue via words `v <<< 11`
and `v`, `0..63` for green via `v <<< 5`) is monotonically
non-decreasing, maps field value 0 to 0 and the maximum field value to
255, and the alpha channel is always 255. -/
theorem unpack_565_channel_monotone (v w : ℕ) (hvw : v ≤ w) :
    (w ≤ 31 →
      (unpack_565 (v <<< 11)).r ≤ (unpack_565 (w <<< 11)).r ∧
      (unpack_565 v).b ≤ (unpack_565 w).b) ∧
    (w ≤ 63 → (unpack_565 (v <<< 5)).g ≤ (unpack_565 (w <<< 5)).g) ∧
    (unpack_565 (0 <<< 11)).r = 0 ∧ (unpack_565 (31 <<< 11)).r = 255 ∧
    (unpack_565 (0 <<< 5)).g = 0 ∧ (unpack_565 (63 <<< 5)).g = 255 ∧
    (unpack_565 0).b = 0 ∧ (unpack_565 31).b = 255 ∧
    ∀ value : ℕ, (unpack_565 value).a = 255 :=
  ⟨fun h31 => unpack_565_mono_rb v (by omega) w (by omega) hvw,
   fun h63 => unpack_565_mono_g v (by omega) w (by omega) hvw,
   rfl, rfl, rfl, rfl, rfl, rfl, fun _ => rfl⟩

/-- Witness for `unpack_565_channel_monotone` at `v = 3`, `w = 17`. -/
theorem unpack_565_channel_monotone_witness :
    (3 : ℕ) ≤ 17 ∧
    ((17 ≤ 31 →
      (unpack_565 (3 <<< 11)).r ≤ (unpack_565 (17 <<< 11)).r ∧
      (unpack_565 3).b ≤ (unpack_565 17).b) ∧
    ((17 : ℕ) ≤ 63 →
      (unpack_565 (3 <<< 5)).g ≤ (unpack_565 (17 <<< 5)).g) ∧
    (unpack_565 (0 <<< 11)).r = 0 ∧ (unpack_565 (31 <<< 11)).r = 255 ∧
    (unpack_565 (0 <<< 5)).g = 0 ∧ (unpack_565 (63 <<< 5)).g = 255 ∧
    (unpack_565 0).b = 0 ∧ (unpack_565 31).b = 255 ∧
    ∀ value : ℕ, (unpack_565 value).a = 255) :=
  ⟨by decide, unpack_565_channel_monotone 3 17 (by decide)⟩

/-- C9: for valid inputs, `decompress` emits `set_value` calls only at
coordinates `x < 4`, `y < 4`, `channel < 4` — exactly one call per
(pixel, channel) pair among the 16 pixels and the first 4 channels,
never touching channels 4 and above even when the sink has more — and
the call at `(x, y, channel)` carries channel `channel` of the pixel
`y*4+x` colour. -/
theorem decompress_write_trace (bytes : List ℕ) (is_bc1 : Bool)
    (numChannels : ℕ) (hlen : bytes.length = 8) (hch : 4 ≤ numChannels) :
    ∃ trace : List (ℕ × ℕ × ℕ × ℕ),
      decompress bytes is_bc1 numChannels = some trace ∧
      trace.map (fun e => (e.1, e.2.1, e.2.2.1)) =
        ((List.range 4).flatMap fun y0 =>
          (List.range 4).flatMap fun x0 =>
            (List.range 4).map fun c0 => (x0, y0, c0)) ∧
      (∀ e ∈ trace, e.1 < 4 ∧ e.2.1 < 4 ∧ e.2.2.1 < 4) ∧
      (∀ x y channel : ℕ, x < 4 → y < 4 → channel < 4 →
        trace.countP
          (fun e => decide ((e.1, e.2.1, e.2.2.1) = (x, y, channel))) = 1) ∧
      (∀ e ∈ trace,
        e.2.2.2 =
          rgbaChannel (decompPixel bytes is_bc1 (e.2.1 * 4 + e.1))
            e.2.2.1) := by
  have hproj :
      ((List.range 4).flatMap fun y =>
        (List.range 4).flatMap fun x =>
          (List.range 4).map fun channel =>
            (x, y, channel,
              rgbaChannel (decompPixel bytes is_bc1 (y * 4 + x))
                channel)).map (fun e => (e.1, e.2.1, e.2.2.1)) =
      ((List.range 4).flatMap fun y0 =>
        (List.range 4).flatMap fun x0 =>
          (List.range 4).map fun c0 => (x0, y0, c0)) := by
    simp only [List.map_flatMap, List.map_map]
    rfl
  refine ⟨_, ?_, hproj, ?_, ?_, ?_⟩
  · unfold decompress
    rw [if_pos ⟨hlen, hch⟩]
  · intro e he
    have h2 := hproj ▸
      List.mem_map_of_mem
        (fun e : ℕ × ℕ × ℕ × ℕ => (e.1, e.2.1, e.2.2.1)) he
    have hall : ∀ q ∈ ((List.range 4).flatMap fun y0 =>
        (List.range 4).flatMap fun x0 =>
          (List.range 4).map fun c0 => (x0, y0, c0)),
        q.1 < 4 ∧ q.2.1 < 4 ∧ q.2.2 < 4 := by decide
    exact hall _ h2
  · intro x y channel hx hy hc
    have key : ∀ x1 < 4, ∀ y1 < 4, ∀ c1 < 4,
        (((List.range 4).flatMap fun y0 =>
          (List.range 4).flatMap fun x0 =>
            (List.range 4).map fun c0 => (x0, y0, c0)).countP
          (fun t => decide (t = (x1, y1, c1)))) = 1 := by decide
    have hcast : (fun e : ℕ × ℕ × ℕ × ℕ =>
        decide ((e.1, e.2.1, e.2.2.1) = (x, y, channel))) =
        ((fun t => decide (t = (x, y, channel))) ∘
          (fun e : ℕ × ℕ × ℕ × ℕ => (e.1, e.2.1, e.2.2.1))) := rfl
    rw [hcast, ← List.countP_map, hproj]
    exact key x hx y hy channel hc
  · intro e he
    rcases List.mem_flatMap.mp he with ⟨y0, hy0, he2⟩
    rcases List.mem_flatMap.mp he2 with ⟨x0, hx0, he3⟩
    rcases List.mem_map.mp he3 with ⟨c0, hc0, rfl⟩
    rfl

/-- Witness for `decompress_write_trace` on an all-zero block with a
4-channel sink. -/
theorem decompress_write_trace_witness :
    ([0, 0, 0, 0, 0, 0, 0, 0] : List ℕ).length = 8 ∧ (4 : ℕ) ≤ 4 ∧
    (∃ trace : List (ℕ × ℕ × ℕ × ℕ),
      decompress [0, 0, 0, 0, 0, 0, 0, 0] true 4 = some trace ∧
      trace.map (fun e => (e.1, e.2.1, e.2.2.1)) =
        ((List.range 4).flatMap fun y0 =>
          (List.range 4).flatMap fun x0 =>
            (List.range 4).map fun c0 => (x0, y0, c0)) ∧
      (∀ e ∈ trace, e.1 < 4 ∧ e.2.1 < 4 ∧ e.2.2.1 < 4) ∧
      (∀ x y channel : ℕ, x < 4 → y < 4 → channel < 4 →
        trace.countP
          (fun e => decide ((e.1, e.2.1, e.2.2.1) = (x, y, channel))) = 1) ∧
      (∀ e ∈ trace,
        e.2.2.2 =
          rgbaChannel (decompPixel [0, 0, 0, 0, 0, 0, 0, 0] true
            (e.2.1 * 4 + e.1)) e.2.2.1)) :=
  ⟨rfl, le_refl 4,
   decompress_write_trace [0, 0, 0, 0, 0, 0, 0, 0] true 4 rfl (le_refl 4)⟩

end Squish
